import Mathlib

/-!
# gitlab.nvim command server: repository identity and merge-request handlers

A shallow embedding of

* `cmd/git.go`: `GitProjectInfo`, `projectPath`, `extractGitInfo` together with
  the remote-URL pattern it compiles,
* `cmd/app/merge_mr.go`: `mergeRequestAccepterService.ServeHTTP`,
* `cmd/app/mergeability_checks.go`: `fetchMergeabilityChecks` and
  `mergeabilityChecksService.ServeHTTP`.

Go strings are Lean strings (a Go string is taken to be valid UTF-8, so that
the matcher steps over characters); a Go `error` is the text of its `Error()`
method, `nil` being `none`.  Callbacks and clients are state-passing functions,
so that the order and the number of their invocations can be observed.
-/

namespace GitlabNvim

/-! ## Regular expressions (Go `regexp`, leftmost-first semantics) -/

/-- A character class: a list of inclusive ranges, possibly negated. -/
structure CharClass where
  negated : Bool
  ranges : List (Char × Char)
  deriving DecidableEq, Repr

/-- Membership of a character in a class. -/
def CharClass.test (c : CharClass) (ch : Char) : Bool :=
  xor c.negated (c.ranges.any (fun r => decide (r.1.toNat ≤ ch.toNat) && decide (ch.toNat ≤ r.2.toNat)))

/-- The syntax of the patterns used by the program.  `x+` is `seq x (star x)`
and `x?` is `alt x empty`, as in Go's simplified syntax tree; `star true` is
the greedy star and `star false` the lazy one. -/
inductive Regex where
  | empty : Regex
  | chr : CharClass → Regex
  | seq : Regex → Regex → Regex
  | alt : Regex → Regex → Regex
  | star : Bool → Regex → Regex
  | group : Nat → Regex → Regex
  | bol : Regex
  | eol : Regex
  deriving Repr

/-- A matcher thread: the offset reached, the text left, and the text of every
capture group (group `i + 1` of the pattern is entry `i`). -/
structure MState where
  pos : Nat
  rest : List Char
  caps : List (List Char)
  deriving DecidableEq, Repr

/-- Iteration of a star: every thread the body yields that consumed input is
continued; the greedy star prefers more iterations, the lazy one fewer.  The
first argument bounds the number of iterations; `Regex.run` passes the length
of the text left, which no run of iterations can exceed (`starLoop_fuel`). -/
def starLoop (greedy : Bool) (body : MState → List MState) : Nat → MState → List MState
  | 0, st => [st]
  | n + 1, st =>
    let more := ((body st).filter (fun st1 => decide (st1.rest.length < st.rest.length))).flatMap
      (starLoop greedy body n)
    if greedy then more ++ [st] else st :: more

/-- All the ways a pattern matches at a thread, in priority order (the order in
which a backtracking matcher finds them). -/
def Regex.run : Regex → MState → List MState
  | .empty, st => [st]
  | .chr c, st =>
    match st.rest with
    | [] => []
    | ch :: t => if c.test ch then [{ st with pos := st.pos + 1, rest := t }] else []
  | .seq a b, st => (a.run st).flatMap b.run
  | .alt a b, st => a.run st ++ b.run st
  | .star g a, st => starLoop g a.run st.rest.length st
  | .group i a, st =>
    (a.run st).map (fun st1 =>
      { st1 with caps := st.caps.set i (st.rest.take (st.rest.length - st1.rest.length)) })
  | .bol, st => if st.pos = 0 then [st] else []
  | .eol, st => if st.rest = [] then [st] else []

/-- The number of capture groups of a pattern. -/
def Regex.numGroups : Regex → Nat
  | .empty => 0
  | .chr _ => 0
  | .seq a b => a.numGroups + b.numGroups
  | .alt a b => a.numGroups + b.numGroups
  | .star _ a => a.numGroups
  | .group _ a => a.numGroups + 1
  | .bol => 0
  | .eol => 0

/-- The leftmost match starting at offset `pos` or later: the matched text
followed by the text of each group. -/
def findFrom (re : Regex) : Nat → List Char → Option (List (List Char))
  | pos, rest =>
    match re.run { pos := pos, rest := rest, caps := List.replicate re.numGroups [] } with
    | st :: _ => some (rest.take (rest.length - st.rest.length) :: st.caps)
    | [] =>
      match rest with
      | [] => none
      | _ :: t => findFrom re (pos + 1) t

/-- Go's `(*Regexp).FindStringSubmatch`: `nil` (here `[]`) when there is no
match, otherwise the match and its groups. -/
def FindStringSubmatch (re : Regex) (s : String) : List String :=
  match findFrom re 0 s.data with
  | none => []
  | some ms => ms.map String.mk

/-- The first thread of a list is at the given text with the given groups. -/
def Yields (l : List MState) (rest : List Char) (caps : List (List Char)) : Prop :=
  ∃ pos t, l = ⟨pos, rest, caps⟩ :: t

/-! ### Pattern builders -/

/-- The class of one character. -/
def CharClass.one (c : Char) : CharClass := { negated := false, ranges := [(c, c)] }

/-- A literal character. -/
def Regex.lit (c : Char) : Regex := .chr (CharClass.one c)

/-- A literal string. -/
def Regex.str : List Char → Regex
  | [] => .empty
  | [c] => .lit c
  | c :: t => .seq (.lit c) (Regex.str t)

/-- Go's `x+` and `x+?`. -/
def Regex.plus (greedy : Bool) (a : Regex) : Regex := .seq a (.star greedy a)

/-- Go's greedy `x?`. -/
def Regex.opt (a : Regex) : Regex := .alt a .empty

/-- `[^\/:]` -/
def clsHost : CharClass := { negated := true, ranges := [('/', '/'), (':', ':')] }

/-- `\d` -/
def clsDigit : CharClass := { negated := false, ranges := [('0', '9')] }

/-- `[\/:]` -/
def clsSep : CharClass := { negated := false, ranges := [('/', '/'), (':', ':')] }

/-- `.` (without the `s` flag: any character but the newline). -/
def clsDot : CharClass := { negated := true, ranges := [('\n', '\n')] }

/-- `[^\/]` -/
def clsNotSlash : CharClass := { negated := true, ranges := [('/', '/')] }

/-- `(?:^https?:\/\/|^ssh:\/\/|^git@)` -/
def reScheme : Regex :=
  .alt (.seq .bol (.seq (.str "http".data) (.seq (.opt (.lit 's')) (.str "://".data))))
    (.alt (.seq .bol (.str "ssh://".data)) (.seq .bol (.str "git@".data)))

/-- `(?:\.git)?$` -/
def reTail : Regex := .seq (.opt (.str ".git".data)) .eol

/-- `([^\/]+?)(?:\.git)?$` -/
def reProjectName : Regex := .seq (.group 1 (.plus false (.chr clsNotSlash))) reTail

/-- `\/([^\/]+?)(?:\.git)?$` -/
def reProject : Regex := .seq (.lit '/') reProjectName

/-- `(.*)\/([^\/]+?)(?:\.git)?$` -/
def reNamespace : Regex := .seq (.group 0 (.star true (.chr clsDot))) reProject

/-- `(?::\d+)?` -/
def rePort : Regex := .opt (.seq (.lit ':') (.plus true (.chr clsDigit)))

/-- `(?::\d+)?[\/:](.*)\/([^\/]+?)(?:\.git)?$` -/
def rePath : Regex := .seq rePort (.seq (.chr clsSep) reNamespace)

/-- The pattern of `extractGitInfo`:
`(?:^https?:\/\/|^ssh:\/\/|^git@)(?:[^\/:]+)(?::\d+)?[\/:](.*)\/([^\/]+?)(?:\.git)?$` -/
def remoteUrlPattern : Regex :=
  .seq reScheme (.seq (.plus true (.chr clsHost)) rePath)

/-! ## `cmd/git.go` -/

/-- The repository identity.  The function-valued member
`GetLatestCommitOnRemote` is attached later by the router and is `nil` in every
value `extractGitInfo` returns; it is not represented. -/
structure GitProjectInfo where
  RemoteUrl : String
  Namespace : String
  ProjectName : String
  BranchName : String
  deriving DecidableEq, Repr

/-- The zero value `GitProjectInfo{}`. -/
def GitProjectInfo.zero : GitProjectInfo :=
  { RemoteUrl := "", Namespace := "", ProjectName := "", BranchName := "" }

/-- The Gitlab project full path. -/
def GitProjectInfo.projectPath (g : GitProjectInfo) : String :=
  g.Namespace ++ "/" ++ g.ProjectName

/-- Extracts information about the current repository.  The three callbacks act
on a state `σ`; each returns its Go results and the new state. -/
def extractGitInfo {σ : Type} (refreshGitInfo : σ → Option String × σ)
    (getProjectRemoteUrl : σ → (String × Option String) × σ)
    (getCurrentBranchName : σ → (String × Option String) × σ) (s : σ) :
    (GitProjectInfo × Option String) × σ :=
  match refreshGitInfo s with
  | (some err, s1) =>
    ((GitProjectInfo.zero, some ("Could not get latest information from remote: " ++ err)), s1)
  | (none, s1) =>
    match getProjectRemoteUrl s1 with
    | ((_, some err), s2) =>
      ((GitProjectInfo.zero, some ("Could not get project Url: " ++ err)), s2)
    | ((url, none), s2) =>
      let submatches := FindStringSubmatch remoteUrlPattern url
      if submatches.length ≠ 3 then
        ((GitProjectInfo.zero, some ("Invalid Git URL format: " ++ url)), s2)
      else
        let namespace1 := submatches.getD 1 ""
        let projectName := submatches.getD 2 ""
        match getCurrentBranchName s2 with
        | ((_, some err), s3) =>
          ((GitProjectInfo.zero, some ("Failed to get current branch: " ++ err)), s3)
        | ((branchName, none), s3) =>
          (({ RemoteUrl := url, Namespace := namespace1, ProjectName := projectName,
              BranchName := branchName }, none), s3)

/-! ### Observing the callbacks -/

/-- The three resolution steps. -/
inductive Step where
  | refresh
  | remoteUrl
  | branchName
  deriving DecidableEq, Repr

/-- A callback that records its invocation; its result may depend on every
invocation made before it. -/
def traced {α : Type} (step : Step) (result : List Step → α) : List Step → α × List Step :=
  fun tr => (result tr, tr ++ [step])

/-! ## Response writing (`net/http`, `encoding/json`) -/

/-- The error envelope. -/
structure ErrorResponse where
  Message : String
  Details : String
  Status : Int
  deriving DecidableEq, Repr

/-- The success envelope. -/
structure SuccessResponse where
  Message : String
  deriving DecidableEq, Repr

/-- One mergeability check. -/
structure MergeabilityCheck where
  Identifier : String
  Status : String
  deriving DecidableEq, Repr

/-- The response of the mergeability-checks handler.  The slice holds
pointers, so an entry may be `nil`. -/
structure MergeabilityChecksResponse where
  toSuccessResponse : SuccessResponse
  MergeabilityChecks : List (Option MergeabilityCheck)
  deriving DecidableEq, Repr

/-- A value handed to the JSON encoder. -/
inductive Body where
  | success : SuccessResponse → Body
  | error : ErrorResponse → Body
  | checks : MergeabilityChecksResponse → Body
  deriving DecidableEq, Repr

/-- An `http.ResponseWriter`: the error its `Write` returns (if the connection
is broken), the status code sent, and the values encoded into the body. -/
structure ResponseWriter where
  writeErr : Option String
  code : Option Int
  body : List Body
  deriving DecidableEq, Repr

/-- A writer nothing has been written to. -/
def ResponseWriter.fresh (writeErr : Option String) : ResponseWriter :=
  { writeErr := writeErr, code := none, body := [] }

/-- `w.WriteHeader(status)`: only the first call sets the status. -/
def WriteHeader (w : ResponseWriter) (status : Int) : ResponseWriter :=
  match w.code with
  | some _ => w
  | none => { w with code := some status }

/-- `json.NewEncoder(w).Encode(v)`: the error of the underlying write, if any;
a write before any `WriteHeader` sends status 200. -/
def Encode (w : ResponseWriter) (v : Body) : ResponseWriter × Option String :=
  match w.writeErr with
  | some e => (w, some e)
  | none => ({ w with code := some (w.code.getD 200), body := w.body ++ [v] }, none)

/-- Modelled from the spec: `GenericError` is not among the sources; its message
names the endpoint, in the form `checkNon200` of `cmd/test.go` expects. -/
def GenericError (endpoint : String) : String :=
  "An error occurred on the " ++ endpoint ++ " endpoint"

/-- Modelled from the spec: `handleError` is not among the sources.  A failure is
converted into the error envelope with the given status, the short message, and
the underlying cause verbatim as details. -/
def handleError (w : ResponseWriter) (err : String) (message : String) (status : Int) :
    ResponseWriter :=
  (Encode (WriteHeader w status) (.error { Message := message, Details := err, Status := status })).1

/-- `http.StatusOK` -/
def StatusOK : Int := 200

/-- `http.StatusInternalServerError` -/
def StatusInternalServerError : Int := 500

/-! ## Request context -/

/-- The members of `ProjectInfo` the handlers read. -/
structure ProjectInfo where
  ProjectId : String
  MergeId : Int
  deriving DecidableEq, Repr

/-- The request context shared by the handlers.  In `cmd/app` the member
`gitInfo` is a `git.GitData`, whose members and `ProjectPath` are those of
`GitProjectInfo` and `projectPath` of `cmd/git.go`. -/
structure data where
  projectInfo : ProjectInfo
  gitInfo : GitProjectInfo
  deriving DecidableEq, Repr

/-! ## `cmd/app/merge_mr.go` -/

/-- The payload of the accept-merge command. -/
structure AcceptMergeRequestRequest where
  AutoMerge : Bool
  DeleteBranch : Bool
  SquashMessage : String
  Squash : Bool
  deriving DecidableEq, Repr

/-- The members of `gitlab.AcceptMergeRequestOptions` the handler sets; a `nil`
pointer is `none`. -/
structure AcceptMergeRequestOptions where
  AutoMerge : Option Bool
  Squash : Option Bool
  ShouldRemoveSourceBranch : Option Bool
  SquashCommitMessage : Option String
  deriving DecidableEq, Repr

/-- What `AcceptMergeRequest` returns: the status code of the response and the
error.  The merge request itself is discarded by the handler; the response is
read only when the error is `nil`, and is then taken to be present. -/
structure AcceptResult where
  StatusCode : Int
  err : Option String
  deriving DecidableEq, Repr

/-- The arguments of one call of `AcceptMergeRequest`. -/
structure AcceptCall where
  pid : String
  mergeRequest : Int
  opt : AcceptMergeRequestOptions
  deriving DecidableEq, Repr

/-- The `MergeRequestAccepter` interface, acting on a client state `σ`. -/
abbrev MergeRequestAccepter (σ : Type) := σ → AcceptCall → AcceptResult × σ

/-- The service: the context and the client. -/
structure mergeRequestAccepterService (σ : Type) where
  todata : data
  client : MergeRequestAccepter σ

/-- The options built from the payload. -/
def acceptOptions (payload : AcceptMergeRequestRequest) : AcceptMergeRequestOptions :=
  let opts : AcceptMergeRequestOptions :=
    { AutoMerge := some payload.AutoMerge
      Squash := some payload.Squash
      ShouldRemoveSourceBranch := some payload.DeleteBranch
      SquashCommitMessage := none }
  if payload.SquashMessage ≠ "" then
    { opts with SquashCommitMessage := some payload.SquashMessage }
  else opts

/-- Merges a given merge request into the target branch.  `path` is
`r.URL.Path` and `payload` the value the decoding middleware attached. -/
def mergeRequestAccepterService.ServeHTTP {σ : Type} (a : mergeRequestAccepterService σ)
    (w : ResponseWriter) (path : String) (payload : AcceptMergeRequestRequest) (s : σ) :
    ResponseWriter × σ :=
  let opts := acceptOptions payload
  match a.client s { pid := a.todata.projectInfo.ProjectId,
                     mergeRequest := a.todata.projectInfo.MergeId, opt := opts } with
  | (res, s1) =>
    match res.err with
    | some err => (handleError w err "Could not merge MR" StatusInternalServerError, s1)
    | none =>
      if res.StatusCode ≥ 300 then
        (handleError w (GenericError path) "Could not merge MR" res.StatusCode, s1)
      else
        let message :=
          if payload.AutoMerge then "MR set to be merged when all checks pass"
          else "MR merged successfully"
        let response : SuccessResponse := { Message := message }
        let w1 := WriteHeader w StatusOK
        match Encode w1 (.success response) with
        | (w2, some err) =>
          (handleError w2 err "Could not encode response" StatusInternalServerError, s1)
        | (w2, none) => (w2, s1)

/-- A client that records the calls it receives; its answer may depend on the
calls made before. -/
def recordingAccepter (answer : List AcceptCall → AcceptCall → AcceptResult) :
    MergeRequestAccepter (List AcceptCall) :=
  fun log call => (answer log call, log ++ [call])

/-! ## `cmd/app/mergeability_checks.go` -/

/-- The typed slot the GraphQL response is unmarshalled into:
`Data.Project.MergeRequest.MergeabilityChecks`. -/
structure mergeabilityChecksGraphQLResponse where
  MergeabilityChecks : List (Option MergeabilityCheck)
  deriving DecidableEq, Repr

/-- The query text. -/
def mergeabilityChecksQuery : String :=
  "\nquery GetMergeabilityChecks($projectPath: ID!, $iid: String!) \x7b\n\tproject(fullPath: $projectPath) \x7b\n\t\tmergeRequest(iid: $iid) \x7b\n\t\t\tmergeabilityChecks \x7b\n\t\t\t\tidentifier\n\t\t\t\tstatus\n\t\t\t\x7d\n\t\t\x7d\n\t\x7d\n\x7d\n"

/-- A `gitlab.GraphQLQuery`. -/
structure GraphQLQuery where
  Query : String
  Variables : List (String × String)
  deriving DecidableEq, Repr

/-- The `Do` method of `gitlab.GraphQLInterface`, acting on a client state `σ`:
the content of the response slot after the call, and the error. -/
abbrev GraphQLInterface (σ : Type) :=
  σ → GraphQLQuery → (mergeabilityChecksGraphQLResponse × Option String) × σ

/-- The service: the context and the client. -/
structure mergeabilityChecksService (σ : Type) where
  todata : data
  client : GraphQLInterface σ

/-- Issues the query and returns the checks of the response. -/
def mergeabilityChecksService.fetchMergeabilityChecks {σ : Type}
    (a : mergeabilityChecksService σ) (s : σ) :
    (List (Option MergeabilityCheck) × Option String) × σ :=
  match a.client s { Query := mergeabilityChecksQuery,
                     Variables := [("projectPath", a.todata.gitInfo.projectPath),
                                   ("iid", toString a.todata.projectInfo.MergeId)] } with
  | ((_, some err), s1) => (([], some ("failed to fetch mergeability checks: " ++ err)), s1)
  | ((response, none), s1) => ((response.MergeabilityChecks, none), s1)

/-- The mergeability-checks handler. -/
def mergeabilityChecksService.ServeHTTP {σ : Type} (a : mergeabilityChecksService σ)
    (w : ResponseWriter) (s : σ) : ResponseWriter × σ :=
  match a.fetchMergeabilityChecks s with
  | ((_, some err), s1) =>
    (handleError w err "Could not get mergeability checks" StatusInternalServerError, s1)
  | ((checks, none), s1) =>
    let w1 := WriteHeader w StatusOK
    let response : MergeabilityChecksResponse :=
      { toSuccessResponse := { Message := "Mergeability checks retrieved" }
        MergeabilityChecks := checks }
    match Encode w1 (.checks response) with
    | (w2, some err) =>
      (handleError w2 err "Could not encode response" StatusInternalServerError, s1)
    | (w2, none) => (w2, s1)

/-- A GraphQL client that records the queries it receives. -/
def recordingGraphQL
    (answer : List GraphQLQuery → GraphQLQuery → mergeabilityChecksGraphQLResponse × Option String) :
    GraphQLInterface (List GraphQLQuery) :=
  fun log q => (answer log q, log ++ [q])

/-! ## The matcher: general facts -/

theorem test_one (c d : Char) : (CharClass.one c).test d = decide (d = c) := by
  simp only [CharClass.test, CharClass.one, List.any_cons, List.any_nil, Bool.or_false,
    Bool.false_xor]
  by_cases h : d = c
  · subst h; simp
  · have hne : d.toNat ≠ c.toNat := fun hv => h (Char.ext (UInt32.ext (by simpa [Char.toNat] using hv)))
    simp only [h, decide_False]
    rw [Bool.and_eq_false_iff]
    simp only [decide_eq_false_iff_not]
    omega

theorem run_chr_nil (c : CharClass) (pos : Nat) (caps : List (List Char)) :
    (Regex.chr c).run ⟨pos, [], caps⟩ = [] := rfl

theorem run_chr_cons (c : CharClass) (pos : Nat) (ch : Char) (t : List Char)
    (caps : List (List Char)) :
    (Regex.chr c).run ⟨pos, ch :: t, caps⟩ = if c.test ch then [⟨pos + 1, t, caps⟩] else [] := rfl

theorem run_lit_cons (c : Char) (pos : Nat) (ch : Char) (t : List Char)
    (caps : List (List Char)) :
    (Regex.lit c).run ⟨pos, ch :: t, caps⟩ = if ch = c then [⟨pos + 1, t, caps⟩] else [] := by
  simp [Regex.lit, run_chr_cons, test_one]

theorem run_lit_nil (c : Char) (pos : Nat) (caps : List (List Char)) :
    (Regex.lit c).run ⟨pos, [], caps⟩ = [] := rfl

theorem run_seq (a b : Regex) (st : MState) : (Regex.seq a b).run st = (a.run st).flatMap b.run :=
  rfl

theorem run_alt (a b : Regex) (st : MState) : (Regex.alt a b).run st = a.run st ++ b.run st := rfl

theorem run_opt (a : Regex) (st : MState) : (Regex.opt a).run st = a.run st ++ [st] := rfl

theorem run_star_chr_nil (g : Bool) (c : CharClass) (pos : Nat) (caps : List (List Char)) :
    (Regex.star g (.chr c)).run ⟨pos, [], caps⟩ = [⟨pos, [], caps⟩] := rfl

theorem run_star_chr_cons (g : Bool) (c : CharClass) (pos : Nat) (a : Char) (u : List Char)
    (caps : List (List Char)) :
    (Regex.star g (.chr c)).run ⟨pos, a :: u, caps⟩ =
      if c.test a then
        (if g then (Regex.star g (.chr c)).run ⟨pos + 1, u, caps⟩ ++ [⟨pos, a :: u, caps⟩]
         else ⟨pos, a :: u, caps⟩ :: (Regex.star g (.chr c)).run ⟨pos + 1, u, caps⟩)
      else [⟨pos, a :: u, caps⟩] := by
  simp only [Regex.run, List.length_cons, starLoop]
  by_cases h : c.test a <;> cases g <;> simp [h]

theorem flatMap_congr_mem {α β : Type} (f g : α → List β) :
    ∀ (l : List α), (∀ x ∈ l, f x = g x) → l.flatMap f = l.flatMap g := by
  intro l
  induction l with
  | nil => intro _; rfl
  | cons a l ih =>
    intro h
    simp only [List.flatMap_cons]
    rw [h a (by simp), ih (fun x hx => h x (by simp [hx]))]

/-- The bound on the iterations of a star loses nothing: every iteration
consumes input, so any bound that is at least the length of the text left
gives the same threads. -/
theorem starLoop_fuel (g : Bool) (body : MState → List MState) :
    ∀ (n m : Nat) (st : MState), st.rest.length ≤ n → st.rest.length ≤ m →
      starLoop g body n st = starLoop g body m st := by
  intro n
  induction n with
  | zero =>
    intro m st hn _
    have h0 : st.rest.length = 0 := Nat.le_zero.1 hn
    cases m with
    | zero => rfl
    | succ m =>
      have : (body st).filter (fun st1 => decide (st1.rest.length < st.rest.length)) = [] := by
        rw [List.filter_eq_nil_iff]
        intro x _
        simp [h0]
      cases g <;> simp [starLoop, this]
  | succ n ih =>
    intro m st hn hm
    cases m with
    | zero =>
      have h0 : st.rest.length = 0 := Nat.le_zero.1 hm
      have : (body st).filter (fun st1 => decide (st1.rest.length < st.rest.length)) = [] := by
        rw [List.filter_eq_nil_iff]
        intro x _
        simp [h0]
      cases g <;> simp [starLoop, this]
    | succ m =>
      have hc : ((body st).filter (fun st1 => decide (st1.rest.length < st.rest.length))).flatMap
          (starLoop g body n) =
          ((body st).filter (fun st1 => decide (st1.rest.length < st.rest.length))).flatMap
          (starLoop g body m) := by
        apply flatMap_congr_mem
        intro x hx
        have hlt : x.rest.length < st.rest.length := by
          simpa using (List.mem_filter.1 hx).2
        exact ih m x (by omega) (by omega)
      simp only [starLoop, hc]

/-- Every thread of a star over a class has consumed a prefix made of
characters of the class. -/
theorem mem_run_star_chr (g : Bool) (c : CharClass) (caps : List (List Char)) (st1 : MState) :
    ∀ (u : List Char) (pos : Nat), st1 ∈ (Regex.star g (.chr c)).run ⟨pos, u, caps⟩ →
      ∃ z y p, u = z ++ y ∧ (∀ x ∈ z, c.test x = true) ∧ st1 = ⟨p, y, caps⟩ := by
  intro u
  induction u with
  | nil =>
    intro pos h
    rw [run_star_chr_nil] at h
    exact ⟨[], [], pos, rfl, by simp, by simpa using h⟩
  | cons a u ih =>
    intro pos h
    rw [run_star_chr_cons] at h
    have hself : st1 = ⟨pos, a :: u, caps⟩ →
        ∃ z y p, a :: u = z ++ y ∧ (∀ x ∈ z, c.test x = true) ∧ st1 = ⟨p, y, caps⟩ :=
      fun e => ⟨[], a :: u, pos, rfl, by simp, e⟩
    have hmore : c.test a = true → st1 ∈ (Regex.star g (.chr c)).run ⟨pos + 1, u, caps⟩ →
        ∃ z y p, a :: u = z ++ y ∧ (∀ x ∈ z, c.test x = true) ∧ st1 = ⟨p, y, caps⟩ := by
      intro ha hm
      obtain ⟨z, y, p, hu, hz, hst⟩ := ih (pos + 1) hm
      refine ⟨a :: z, y, p, by simp [hu], ?_, hst⟩
      intro x hx
      rcases List.mem_cons.1 hx with rfl | hx
      · exact ha
      · exact hz x hx
    by_cases ha : c.test a = true
    · cases g
      · simp only [ha, if_true, Bool.false_eq_true, if_false, List.mem_cons] at h
        rcases h with h | h
        · exact hself h
        · exact hmore ha h
      · simp only [ha, if_true, List.mem_append, List.mem_singleton] at h
        rcases h with h | h
        · exact hmore ha h
        · exact hself h
    · simp only [ha, Bool.false_eq_true, if_false, List.mem_singleton] at h
      exact hself h

theorem Yields.append_left {l : List MState} {rest : List Char} {caps : List (List Char)}
    (h : Yields l rest caps) (l2 : List MState) : Yields (l ++ l2) rest caps := by
  obtain ⟨pos, t, rfl⟩ := h
  exact ⟨pos, t ++ l2, rfl⟩

theorem Yields.nil_append {l : List MState} {rest : List Char} {caps : List (List Char)}
    (h : Yields l rest caps) {l1 : List MState} (h1 : l1 = []) : Yields (l1 ++ l) rest caps := by
  subst h1
  simpa using h

/-- A greedy star over a class followed by `f`: when `f` succeeds after the
prefix `w` and fails after every longer prefix, the first thread is the first
one of `f` after `w`. -/
theorem greedy_first (c : CharClass) (f : MState → List MState) (caps : List (List Char))
    (rest1 : List Char) (caps1 : List (List Char)) :
    ∀ (w rest : List Char) (pos : Nat), (∀ x ∈ w, c.test x = true) →
      (∀ p, Yields (f ⟨p, rest, caps⟩) rest1 caps1) →
      (∀ p z y, z ≠ [] → rest = z ++ y → (∀ x ∈ z, c.test x = true) → f ⟨p, y, caps⟩ = []) →
      Yields (((Regex.star true (.chr c)).run ⟨pos, w ++ rest, caps⟩).flatMap f) rest1 caps1 := by
  intro w
  induction w with
  | nil =>
    intro rest pos _ hf hfail
    simp only [List.nil_append]
    cases rest with
    | nil =>
      rw [run_star_chr_nil]
      simpa using hf pos
    | cons a u =>
      rw [run_star_chr_cons]
      by_cases ha : c.test a = true
      · simp only [ha, if_true, List.flatMap_append, List.flatMap_cons, List.flatMap_nil,
          List.append_nil]
        apply Yields.nil_append (hf pos)
        rw [List.flatMap_eq_nil_iff]
        intro st1 hst1
        obtain ⟨z, y, p, hu, hz, rfl⟩ := mem_run_star_chr true c caps st1 u (pos + 1) hst1
        apply hfail p (a :: z) y (by simp) (by simp [hu])
        intro x hx
        rcases List.mem_cons.1 hx with rfl | hx
        · exact ha
        · exact hz x hx
      · simp only [ha, Bool.false_eq_true, if_false, List.flatMap_cons, List.flatMap_nil,
          List.append_nil]
        exact hf pos
  | cons a w ih =>
    intro rest pos hw hf hfail
    have ha : c.test a = true := hw a (by simp)
    simp only [List.cons_append]
    rw [run_star_chr_cons]
    simp only [ha, if_true, List.flatMap_append]
    exact (ih rest (pos + 1) (fun x hx => hw x (by simp [hx])) hf hfail).append_left _

/-- A lazy star over a class followed by `f`: when `f` succeeds after the
prefix `w` and fails after every shorter prefix, the first thread is the first
one of `f` after `w`. -/
theorem lazy_first (c : CharClass) (f : MState → List MState) (caps : List (List Char))
    (rest : List Char) (rest1 : List Char) (caps1 : List (List Char)) :
    ∀ (w : List Char) (pos : Nat), (∀ x ∈ w, c.test x = true) →
      (∀ p, Yields (f ⟨p, rest, caps⟩) rest1 caps1) →
      (∀ p z y, y ≠ [] → w = z ++ y → f ⟨p, y ++ rest, caps⟩ = []) →
      Yields (((Regex.star false (.chr c)).run ⟨pos, w ++ rest, caps⟩).flatMap f) rest1 caps1 := by
  intro w
  induction w with
  | nil =>
    intro pos _ hf _
    simp only [List.nil_append]
    cases rest with
    | nil =>
      rw [run_star_chr_nil]
      simpa using hf pos
    | cons a u =>
      rw [run_star_chr_cons]
      by_cases ha : c.test a = true
      · simp only [ha, if_true, Bool.false_eq_true, if_false, List.flatMap_cons]
        exact (hf pos).append_left _
      · simp only [ha, Bool.false_eq_true, if_false, List.flatMap_cons, List.flatMap_nil,
          List.append_nil]
        exact hf pos
  | cons a w ih =>
    intro pos hw hf hfail
    have ha : c.test a = true := hw a (by simp)
    simp only [List.cons_append]
    rw [run_star_chr_cons]
    simp only [ha, if_true, Bool.false_eq_true, if_false, List.flatMap_cons]
    apply Yields.nil_append _ (hfail pos [] (a :: w) (by simp) rfl)
    apply ih (pos + 1) (fun x hx => hw x (by simp [hx])) hf
    intro p z y hy hwz
    exact hfail p (a :: z) y hy (by simp [hwz])

/-! ## The matcher on the remote-URL pattern -/

theorem range_one (c x : Char) :
    (decide (c.toNat ≤ x.toNat) && decide (x.toNat ≤ c.toNat)) = decide (x = c) := by
  have h := test_one c x
  simpa [CharClass.test, CharClass.one] using h

theorem clsNotSlash_test (x : Char) : clsNotSlash.test x = !decide (x = '/') := by
  rw [← range_one]
  simp [CharClass.test, clsNotSlash]

theorem clsDot_test (x : Char) : clsDot.test x = !decide (x = '\n') := by
  rw [← range_one]
  simp [CharClass.test, clsDot]

theorem clsHost_test (x : Char) : clsHost.test x = !(decide (x = '/') || decide (x = ':')) := by
  rw [← range_one, ← range_one]
  simp [CharClass.test, clsHost]

theorem clsSep_test (x : Char) : clsSep.test x = (decide (x = '/') || decide (x = ':')) := by
  rw [← range_one, ← range_one]
  simp [CharClass.test, clsSep]

theorem clsDigit_test (x : Char) : clsDigit.test x = x.isDigit := by
  simp only [CharClass.test, clsDigit, List.any_cons, List.any_nil, Bool.or_false,
    Bool.false_xor, Char.isDigit, ge_iff_le, UInt32.le_def, Fin.le_def]
  rfl

theorem run_group (i : Nat) (a : Regex) (st : MState) :
    (Regex.group i a).run st = (a.run st).map (fun st1 =>
      { st1 with caps := st.caps.set i (st.rest.take (st.rest.length - st1.rest.length)) }) := rfl

theorem run_eol (st : MState) : Regex.eol.run st = if st.rest = [] then [st] else [] := rfl

theorem take_consumed {α : Type} (z y : List α) :
    (z ++ y).take ((z ++ y).length - y.length) = z := by
  simp

theorem mem_run_str (caps : List (List Char)) (st1 : MState) :
    ∀ (l y : List Char) (pos : Nat), st1 ∈ (Regex.str l).run ⟨pos, y, caps⟩ →
      ∃ y1 p, y = l ++ y1 ∧ st1 = ⟨p, y1, caps⟩ := by
  intro l
  induction l with
  | nil =>
    intro y pos h
    simp only [Regex.str, Regex.run, List.mem_singleton] at h
    exact ⟨y, pos, rfl, h⟩
  | cons c t ih =>
    intro y pos h
    cases y with
    | nil => cases t <;> simp [Regex.str, run_seq, run_lit_nil] at h
    | cons d y =>
      cases t with
      | nil =>
        simp only [Regex.str, run_lit_cons] at h
        by_cases hd : d = c
        · subst hd
          simp only [if_true, List.mem_singleton] at h
          exact ⟨y, pos + 1, rfl, h⟩
        · simp [hd] at h
      | cons c2 t =>
        simp only [Regex.str, run_seq, run_lit_cons] at h
        by_cases hd : d = c
        · subst hd
          simp only [if_true, List.flatMap_cons, List.flatMap_nil, List.append_nil] at h
          obtain ⟨y1, p, hy, hst⟩ := ih y (pos + 1) h
          exact ⟨y1, p, by simp [hy], hst⟩
        · simp [hd] at h

theorem run_str_append (caps : List (List Char)) :
    ∀ (l y : List Char) (pos : Nat),
      ∃ p, (Regex.str l).run ⟨pos, l ++ y, caps⟩ = [⟨p, y, caps⟩] := by
  intro l
  induction l with
  | nil => intro y pos; exact ⟨pos, rfl⟩
  | cons c t ih =>
    intro y pos
    cases t with
    | nil => exact ⟨pos + 1, by simp [Regex.str, run_lit_cons]⟩
    | cons c2 t =>
      obtain ⟨p, hp⟩ := ih y (pos + 1)
      refine ⟨p, ?_⟩
      simp only [Regex.str, run_seq, List.cons_append, run_lit_cons, if_true, List.flatMap_cons,
        List.flatMap_nil, List.append_nil]
      simpa [Regex.str] using hp

theorem reTail_yields (pos : Nat) (y : List Char) (caps : List (List Char))
    (hy : y = [] ∨ y = ".git".data) : Yields (reTail.run ⟨pos, y, caps⟩) [] caps := by
  rcases hy with rfl | rfl
  · have h0 : (Regex.str ".git".data).run ⟨pos, [], caps⟩ = [] := by
      rw [List.eq_nil_iff_forall_not_mem]
      intro st1 hst1
      obtain ⟨y1, p, hy, -⟩ := mem_run_str caps st1 _ _ _ hst1
      simp at hy
    simp only [reTail, run_seq, run_opt, h0, List.nil_append, List.flatMap_cons,
      List.flatMap_nil, List.append_nil, run_eol, if_true]
    exact ⟨pos, [], rfl⟩
  · obtain ⟨p, hp⟩ := run_str_append caps ".git".data [] pos
    rw [List.append_nil] at hp
    simp only [reTail, run_seq, run_opt, hp, List.flatMap_append, List.flatMap_cons,
      List.flatMap_nil, List.append_nil, run_eol, if_true]
    exact ⟨p, _, rfl⟩

theorem reTail_fail (pos : Nat) (y : List Char) (caps : List (List Char))
    (h1 : y ≠ []) (h2 : y ≠ ".git".data) : reTail.run ⟨pos, y, caps⟩ = [] := by
  simp only [reTail, run_seq, run_opt, List.flatMap_append, List.flatMap_cons,
    List.flatMap_nil, List.append_nil, run_eol, h1, if_false]
  rw [List.flatMap_eq_nil_iff]
  intro st1 hst1
  obtain ⟨y1, p, hy, rfl⟩ := mem_run_str caps st1 _ _ _ hst1
  have : y1 ≠ [] := by
    rintro rfl
    exact h2 (by simpa using hy)
  simp [run_eol, this]

/-- The project name: the lazy run stops at the end of the name. -/
theorem reProjectName_yields (pos : Nat) (p suffix : List Char) (c0 c1 : List Char)
    (hp : p ≠ []) (hslash : '/' ∉ p) (hs : suffix = [] ∨ suffix = ".git".data)
    (hgit : suffix = [] → ¬ ".git".data <:+ p) :
    Yields (reProjectName.run ⟨pos, p ++ suffix, [c0, c1]⟩) [] [c0, p] := by
  obtain ⟨a, w, rfl⟩ := List.exists_cons_of_ne_nil hp
  have ha : clsNotSlash.test a = true := by
    rw [clsNotSlash_test]
    have : a ≠ '/' := fun e => hslash (by simp [e])
    simp [this]
  simp only [reProjectName, run_seq, Regex.plus, run_group, List.cons_append, run_chr_cons, ha,
    if_true, List.flatMap_cons, List.flatMap_nil, List.append_nil, List.flatMap_map]
  apply lazy_first clsNotSlash _ [c0, c1] suffix [] [c0, a :: w] w (pos + 1)
  · intro x hx
    rw [clsNotSlash_test]
    have : x ≠ '/' := fun e => hslash (e ▸ List.mem_cons_of_mem _ hx)
    simp [this]
  · intro q
    have ht : List.take ((a :: (w ++ suffix)).length - suffix.length) (a :: (w ++ suffix)) =
        a :: w := take_consumed (a :: w) suffix
    dsimp only
    rw [ht]
    simp only [List.set_cons_succ, List.set_cons_zero]
    exact reTail_yields q suffix _ hs
  · intro q z y hy hw
    dsimp only
    apply reTail_fail
    · simp [hy]
    · intro he
      rcases hs with rfl | rfl
      · apply hgit rfl
        rw [List.append_nil] at he
        exact ⟨a :: z, by simp [hw, he]⟩
      · exact hy (by simpa using he)

theorem reProject_yields (pos : Nat) (p suffix : List Char) (c0 c1 : List Char)
    (hp : p ≠ []) (hslash : '/' ∉ p) (hs : suffix = [] ∨ suffix = ".git".data)
    (hgit : suffix = [] → ¬ ".git".data <:+ p) :
    Yields (reProject.run ⟨pos, '/' :: (p ++ suffix), [c0, c1]⟩) [] [c0, p] := by
  simp only [reProject, run_seq, run_lit_cons, if_true, List.flatMap_cons, List.flatMap_nil,
    List.append_nil]
  exact reProjectName_yields (pos + 1) p suffix c0 c1 hp hslash hs hgit

theorem reProject_fail (pos : Nat) (y : List Char) (caps : List (List Char)) (hy : '/' ∉ y) :
    reProject.run ⟨pos, y, caps⟩ = [] := by
  cases y with
  | nil => simp [reProject, run_seq, run_lit_nil]
  | cons a t =>
    have : a ≠ '/' := fun e => hy (by simp [e])
    simp [reProject, run_seq, run_lit_cons, this]

/-- The namespace: the greedy run backs off to the last slash. -/
theorem reNamespace_yields (pos : Nat) (ns p suffix : List Char) (c0 c1 : List Char)
    (hns : '\n' ∉ ns) (hp : p ≠ []) (hslash : '/' ∉ p)
    (hs : suffix = [] ∨ suffix = ".git".data) (hgit : suffix = [] → ¬ ".git".data <:+ p) :
    Yields (reNamespace.run ⟨pos, ns ++ '/' :: (p ++ suffix), [c0, c1]⟩) [] [ns, p] := by
  have hsuf : '/' ∉ suffix := by
    rcases hs with rfl | rfl
    · simp
    · decide
  simp only [reNamespace, run_seq, run_group, List.flatMap_map]
  apply greedy_first clsDot _ [c0, c1] [] [ns, p] ns ('/' :: (p ++ suffix)) pos
  · intro x hx
    rw [clsDot_test]
    have : x ≠ '\n' := fun e => hns (e ▸ hx)
    simp [this]
  · intro q
    have ht : List.take ((ns ++ '/' :: (p ++ suffix)).length - ('/' :: (p ++ suffix)).length)
        (ns ++ '/' :: (p ++ suffix)) = ns := take_consumed ns _
    dsimp only
    rw [ht]
    simp only [List.set_cons_zero]
    exact reProject_yields q p suffix ns c1 hp hslash hs hgit
  · intro q z y hz hzy _
    dsimp only
    apply reProject_fail
    cases z with
    | nil => exact absurd rfl hz
    | cons b z =>
      simp only [List.cons_append, List.cons.injEq] at hzy
      intro hmem
      have : '/' ∈ p ++ suffix := by rw [hzy.2]; simp [hmem]
      rcases List.mem_append.1 this with h | h
      · exact hslash h
      · exact hsuf h

theorem rePath_slash (pos : Nat) (r : List Char) (caps : List (List Char)) :
    rePath.run ⟨pos, '/' :: r, caps⟩ = reNamespace.run ⟨pos + 1, r, caps⟩ := by
  simp [rePath, rePort, run_seq, run_opt, run_lit_cons, run_chr_cons, clsSep_test]

theorem rePath_port (pos : Nat) (digits r : List Char) (caps : List (List Char))
    (rest1 : List Char) (caps1 : List (List Char))
    (hd : digits ≠ []) (hdig : ∀ x ∈ digits, x.isDigit = true)
    (hk : ∀ q, Yields (reNamespace.run ⟨q, r, caps⟩) rest1 caps1) :
    Yields (rePath.run ⟨pos, ':' :: (digits ++ '/' :: r), caps⟩) rest1 caps1 := by
  obtain ⟨d, ds, rfl⟩ := List.exists_cons_of_ne_nil hd
  have hd0 : clsDigit.test d = true := by rw [clsDigit_test]; exact hdig d (by simp)
  simp only [rePath, rePort, run_opt, run_seq, Regex.plus, run_lit_cons, if_true,
    List.flatMap_cons, List.flatMap_nil, List.append_nil, List.cons_append, run_chr_cons, hd0,
    List.flatMap_append]
  apply Yields.append_left
  apply greedy_first clsDigit _ caps rest1 caps1 ds ('/' :: r) (pos + 1 + 1)
  · intro x hx
    rw [clsDigit_test]
    exact hdig x (by simp [hx])
  · intro q
    have := hk (q + 1)
    simpa [run_seq, run_chr_cons, clsSep_test] using this
  · intro q z y hz hzy hall
    cases z with
    | nil => exact absurd rfl hz
    | cons b z =>
      simp only [List.cons_append, List.cons.injEq] at hzy
      have hb := hall b (by simp)
      rw [← hzy.1, clsDigit_test] at hb
      exact absurd hb (by decide)

theorem host_yields (pos : Nat) (h : List Char) (sepc : Char) (r : List Char)
    (caps : List (List Char)) (rest1 : List Char) (caps1 : List (List Char))
    (hh : h ≠ []) (hhost : ∀ x ∈ h, x ≠ '/' ∧ x ≠ ':') (hsep : sepc = '/' ∨ sepc = ':')
    (hk : ∀ q, Yields (rePath.run ⟨q, sepc :: r, caps⟩) rest1 caps1) :
    Yields (((Regex.plus true (.chr clsHost)).run ⟨pos, h ++ sepc :: r, caps⟩).flatMap rePath.run)
      rest1 caps1 := by
  obtain ⟨a, w, rfl⟩ := List.exists_cons_of_ne_nil hh
  have ha : clsHost.test a = true := by
    rw [clsHost_test]
    have := hhost a (by simp)
    simp [this.1, this.2]
  simp only [Regex.plus, run_seq, List.cons_append, run_chr_cons, ha, if_true, List.flatMap_cons,
    List.flatMap_nil, List.append_nil]
  apply greedy_first clsHost _ caps rest1 caps1 w (sepc :: r) (pos + 1)
  · intro x hx
    rw [clsHost_test]
    have := hhost x (by simp [hx])
    simp [this.1, this.2]
  · exact hk
  · intro q z y hz hzy hall
    cases z with
    | nil => exact absurd rfl hz
    | cons b z =>
      simp only [List.cons_append, List.cons.injEq] at hzy
      have hb := hall b (by simp)
      rw [← hzy.1, clsHost_test] at hb
      rcases hsep with rfl | rfl <;> simp at hb

theorem run_bol (st : MState) : Regex.bol.run st = if st.pos = 0 then [st] else [] := rfl

theorem reScheme_url (scheme : List Char)
    (hs : scheme = "https://".data ∨ scheme = "http://".data ∨ scheme = "ssh://".data)
    (x : List Char) (caps : List (List Char)) :
    ∃ p, reScheme.run ⟨0, scheme ++ x, caps⟩ = [⟨p, x, caps⟩] := by
  have e1 : "http".data = ['h', 't', 't', 'p'] := rfl
  have e2 : "://".data = [':', '/', '/'] := rfl
  have e3 : "ssh://".data = ['s', 's', 'h', ':', '/', '/'] := rfl
  have e4 : "git@".data = ['g', 'i', 't', '@'] := rfl
  rcases hs with rfl | rfl | rfl
  · refine ⟨8, ?_⟩
    have e5 : "https://".data = ['h', 't', 't', 'p', 's', ':', '/', '/'] := rfl
    simp [reScheme, e1, e2, e3, e4, e5, run_seq, run_alt, run_opt, run_bol, Regex.str,
      run_lit_cons]
  · refine ⟨7, ?_⟩
    have e5 : "http://".data = ['h', 't', 't', 'p', ':', '/', '/'] := rfl
    simp [reScheme, e1, e2, e3, e4, e5, run_seq, run_alt, run_opt, run_bol, Regex.str,
      run_lit_cons]
  · refine ⟨6, ?_⟩
    simp [reScheme, e1, e2, e3, e4, run_seq, run_alt, run_opt, run_bol, Regex.str,
      run_lit_cons]

/-- The pattern on a URL-style remote: the first thread has consumed the whole
URL, with the namespace and the project name in the two groups. -/
theorem remoteUrlPattern_yields (scheme h portPart ns p suffix : List Char)
    (hscheme : scheme = "https://".data ∨ scheme = "http://".data ∨ scheme = "ssh://".data)
    (hh : h ≠ []) (hhost : ∀ x ∈ h, x ≠ '/' ∧ x ≠ ':')
    (hport : portPart = [] ∨
      ∃ digits, digits ≠ [] ∧ (∀ x ∈ digits, x.isDigit = true) ∧ portPart = ':' :: digits)
    (hns : '\n' ∉ ns) (hp : p ≠ []) (hslash : '/' ∉ p)
    (hs : suffix = [] ∨ suffix = ".git".data) (hgit : suffix = [] → ¬ ".git".data <:+ p) :
    Yields (remoteUrlPattern.run
      ⟨0, scheme ++ (h ++ (portPart ++ '/' :: (ns ++ '/' :: (p ++ suffix)))), [[], []]⟩)
      [] [ns, p] := by
  obtain ⟨q, hq⟩ := reScheme_url scheme hscheme
    (h ++ (portPart ++ '/' :: (ns ++ '/' :: (p ++ suffix)))) [[], []]
  simp only [remoteUrlPattern, run_seq, hq, List.flatMap_cons, List.flatMap_nil, List.append_nil]
  rcases hport with rfl | ⟨digits, hd, hdig, rfl⟩
  · simp only [List.nil_append]
    apply host_yields q h '/' _ _ _ _ hh hhost (Or.inl rfl)
    intro q1
    rw [rePath_slash]
    exact reNamespace_yields _ ns p suffix [] [] hns hp hslash hs hgit
  · simp only [List.cons_append]
    apply host_yields q h ':' _ _ _ _ hh hhost (Or.inr rfl)
    intro q1
    apply rePath_port q1 digits _ _ _ _ hd hdig
    intro q2
    exact reNamespace_yields _ ns p suffix [] [] hns hp hslash hs hgit

theorem findFrom_of_yields (re : Regex) (pos : Nat) (rest : List Char)
    (caps : List (List Char))
    (h : Yields (re.run ⟨pos, rest, List.replicate re.numGroups []⟩) [] caps) :
    findFrom re pos rest = some (rest :: caps) := by
  obtain ⟨q, t, ht⟩ := h
  cases rest <;> simp [findFrom, ht]

theorem not_mem_intercalate_go (c : Char) (sep : String) (hsep : c ∉ sep.data) :
    ∀ (l : List String) (acc : String), c ∉ acc.data → (∀ g ∈ l, c ∉ g.data) →
      c ∉ (String.intercalate.go acc sep l).data := by
  intro l
  induction l with
  | nil => intro acc hacc _; simpa [String.intercalate.go] using hacc
  | cons a l ih =>
    intro acc hacc hl
    simp only [String.intercalate.go]
    apply ih
    · simp only [String.data_append, List.mem_append, not_or]
      exact ⟨⟨hacc, hsep⟩, hl a (by simp)⟩
    · intro g hg
      exact hl g (by simp [hg])

theorem not_mem_intercalate (c : Char) (sep : String) (hsep : c ∉ sep.data) (l : List String)
    (hl : ∀ g ∈ l, c ∉ g.data) : c ∉ (sep.intercalate l).data := by
  cases l with
  | nil => simp [String.intercalate]
  | cons a l =>
    simp only [String.intercalate]
    exact not_mem_intercalate_go c sep hsep l a (hl a (by simp)) (fun g hg => hl g (by simp [hg]))

/-! ## The matcher: what every thread preserves -/

theorem starLoop_rel (R : MState → MState → Prop) (hrefl : ∀ s, R s s)
    (htrans : ∀ a b c, R a b → R b c → R a c) (g : Bool) (body : MState → List MState)
    (hbody : ∀ s s1, s1 ∈ body s → R s s1) :
    ∀ (n : Nat) (s s1 : MState), s1 ∈ starLoop g body n s → R s s1 := by
  intro n
  induction n with
  | zero =>
    intro s s1 h
    simp only [starLoop, List.mem_singleton] at h
    exact h ▸ hrefl s
  | succ n ih =>
    intro s s1 h
    have hmore : s1 ∈ ((body s).filter
        (fun st1 => decide (st1.rest.length < s.rest.length))).flatMap (starLoop g body n) →
        R s s1 := by
      intro hm
      obtain ⟨s2, hs2, hs1⟩ := List.mem_flatMap.1 hm
      exact htrans _ _ _ (hbody s s2 (List.mem_filter.1 hs2).1) (ih s2 s1 hs1)
    cases g
    · simp only [starLoop, Bool.false_eq_true, if_false, List.mem_cons] at h
      rcases h with h | h
      · exact h ▸ hrefl s
      · exact hmore h
    · simp only [starLoop, if_true, List.mem_append, List.mem_singleton] at h
      rcases h with h | h
      · exact hmore h
      · exact h ▸ hrefl s

/-- A relation between threads that is reflexive, transitive, and holds across
the consumption of a character and across the recording of a group, holds
between a thread and every thread a pattern yields from it. -/
theorem run_rel (R : MState → MState → Prop) (hrefl : ∀ s, R s s)
    (htrans : ∀ a b c, R a b → R b c → R a c)
    (hchr : ∀ pos ch t caps, R ⟨pos, ch :: t, caps⟩ ⟨pos + 1, t, caps⟩)
    (hgroup : ∀ i (s s1 : MState), R s s1 →
      R s { s1 with caps := s.caps.set i (s.rest.take (s.rest.length - s1.rest.length)) }) :
    ∀ (r : Regex) (s s1 : MState), s1 ∈ r.run s → R s s1 := by
  intro r
  induction r with
  | empty =>
    intro s s1 h
    simp only [Regex.run, List.mem_singleton] at h
    exact h ▸ hrefl s
  | chr c =>
    intro s s1 h
    obtain ⟨pos, rest, caps⟩ := s
    cases rest with
    | nil => simp [run_chr_nil] at h
    | cons ch t =>
      rw [run_chr_cons] at h
      by_cases hc : c.test ch = true
      · simp only [hc, if_true, List.mem_singleton] at h
        exact h ▸ hchr pos ch t caps
      · simp [hc] at h
  | seq a b iha ihb =>
    intro s s1 h
    obtain ⟨s2, h2, h1⟩ := List.mem_flatMap.1 (by simpa only [run_seq] using h)
    exact htrans _ _ _ (iha s s2 h2) (ihb s2 s1 h1)
  | alt a b iha ihb =>
    intro s s1 h
    rcases List.mem_append.1 (by simpa only [run_alt] using h) with h | h
    · exact iha s s1 h
    · exact ihb s s1 h
  | star g a iha =>
    intro s s1 h
    exact starLoop_rel R hrefl htrans g a.run iha _ s s1 h
  | group i a iha =>
    intro s s1 h
    rw [run_group] at h
    obtain ⟨s2, h2, rfl⟩ := List.mem_map.1 h
    exact hgroup i s s2 (iha s s2 h2)
  | bol =>
    intro s s1 h
    rw [run_bol] at h
    by_cases hp : s.pos = 0
    · simp only [hp, if_true, List.mem_singleton] at h
      exact h ▸ hrefl s
    · simp [hp] at h
  | eol =>
    intro s s1 h
    rw [run_eol] at h
    by_cases hp : s.rest = []
    · simp only [hp, if_true, List.mem_singleton] at h
      exact h ▸ hrefl s
    · simp [hp] at h

theorem run_caps_length (r : Regex) (s s1 : MState) (h : s1 ∈ r.run s) :
    s1.caps.length = s.caps.length :=
  run_rel (fun s s1 => s1.caps.length = s.caps.length) (fun _ => rfl)
    (fun _ _ _ h1 h2 => h2.trans h1) (fun _ _ _ _ => rfl)
    (fun _ _ _ _ => by simp) r s s1 h

theorem run_rest_length (r : Regex) (s s1 : MState) (h : s1 ∈ r.run s) :
    s1.rest.length ≤ s.rest.length :=
  run_rel (fun s s1 => s1.rest.length ≤ s.rest.length) (fun _ => Nat.le_refl _)
    (fun _ _ _ h1 h2 => Nat.le_trans h2 h1) (fun _ _ _ _ => by simp)
    (fun _ _ _ h => h) r s s1 h

/-- A pattern without groups leaves the groups as they are. -/
theorem run_caps_eq : ∀ (r : Regex), r.numGroups = 0 → ∀ (s s1 : MState), s1 ∈ r.run s →
    s1.caps = s.caps := by
  intro r
  induction r with
  | empty =>
    intro _ s s1 h
    simp only [Regex.run, List.mem_singleton] at h
    rw [h]
  | chr c =>
    intro _ s s1 h
    obtain ⟨pos, rest, caps⟩ := s
    cases rest with
    | nil => simp [run_chr_nil] at h
    | cons ch t =>
      rw [run_chr_cons] at h
      by_cases hc : c.test ch = true
      · simp only [hc, if_true, List.mem_singleton] at h
        rw [h]
      · simp [hc] at h
  | seq a b iha ihb =>
    intro hn s s1 h
    simp only [Regex.numGroups, Nat.add_eq_zero] at hn
    obtain ⟨s2, h2, h1⟩ := List.mem_flatMap.1 (by simpa only [run_seq] using h)
    exact (ihb hn.2 s2 s1 h1).trans (iha hn.1 s s2 h2)
  | alt a b iha ihb =>
    intro hn s s1 h
    simp only [Regex.numGroups, Nat.add_eq_zero] at hn
    rcases List.mem_append.1 (by simpa only [run_alt] using h) with h | h
    · exact iha hn.1 s s1 h
    · exact ihb hn.2 s s1 h
  | star g a iha =>
    intro hn s s1 h
    simp only [Regex.numGroups] at hn
    exact starLoop_rel (fun s s1 => s1.caps = s.caps) (fun _ => rfl)
      (fun _ _ _ h1 h2 => h2.trans h1) g a.run (iha hn) _ s s1 h
  | group i a _ =>
    intro hn
    simp [Regex.numGroups] at hn
  | bol =>
    intro _ s s1 h
    rw [run_bol] at h
    by_cases hp : s.pos = 0
    · simp only [hp, if_true, List.mem_singleton] at h
      rw [h]
    · simp [hp] at h
  | eol =>
    intro _ s s1 h
    rw [run_eol] at h
    by_cases hp : s.rest = []
    · simp only [hp, if_true, List.mem_singleton] at h
      rw [h]
    · simp [hp] at h

theorem plus_chr_consumes (g : Bool) (c : CharClass) (s s1 : MState)
    (h : s1 ∈ (Regex.plus g (.chr c)).run s) : s1.rest.length < s.rest.length := by
  obtain ⟨s2, h2, h1⟩ := List.mem_flatMap.1 (by simpa only [Regex.plus, run_seq] using h)
  have hle := run_rest_length _ s2 s1 h1
  obtain ⟨pos, rest, caps⟩ := s
  cases rest with
  | nil => simp [run_chr_nil] at h2
  | cons ch t =>
    rw [run_chr_cons] at h2
    by_cases hc : c.test ch = true
    · simp only [hc, if_true, List.mem_singleton] at h2
      subst h2
      simp only [List.length_cons]
      simp only at hle
      omega
    · simp [hc] at h2

/-- Every thread of the pattern carries two groups, the second one not empty. -/
theorem remoteUrlPattern_caps (pos : Nat) (rest : List Char) (st : MState)
    (h : st ∈ remoteUrlPattern.run ⟨pos, rest, [[], []]⟩) :
    ∃ c0 c1, st.caps = [c0, c1] ∧ c1 ≠ [] := by
  simp only [remoteUrlPattern, rePath, reNamespace, reProject, reProjectName, run_seq,
    List.mem_flatMap] at h
  obtain ⟨s1, h1, s2, h2, s3, h3, s4, h4, s5, h5, s6, h6, s7, h7, h8⟩ := h
  have l1 := run_caps_length _ _ _ h1
  have l2 := run_caps_length _ _ _ h2
  have l3 := run_caps_length _ _ _ h3
  have l4 := run_caps_length _ _ _ h4
  have l5 := run_caps_length _ _ _ h5
  have l6 := run_caps_length _ _ _ h6
  have hlen : s6.caps.length = 2 := by
    rw [l6, l5, l4, l3, l2, l1]
    rfl
  rw [run_group] at h7
  obtain ⟨s8, h9, rfl⟩ := List.mem_map.1 h7
  have hlt := plus_chr_consumes _ _ _ _ h9
  have hcaps := run_caps_eq reTail rfl _ _ h8
  rw [hcaps]
  obtain ⟨p6, r6, c6⟩ := s6
  simp only at hlen hlt ⊢
  match c6, hlen with
  | [a, b], _ =>
    refine ⟨a, List.take (r6.length - s8.rest.length) r6, by simp, ?_⟩
    intro he
    have := congrArg List.length he
    simp only [List.length_take, List.length_nil] at this
    omega

theorem findFrom_some (re : Regex) : ∀ (rest : List Char) (pos : Nat) (ms : List (List Char)),
    findFrom re pos rest = some ms →
      ∃ pos1 rest1 st w, st ∈ re.run ⟨pos1, rest1, List.replicate re.numGroups []⟩ ∧
        ms = w :: st.caps := by
  intro rest
  induction rest with
  | nil =>
    intro pos ms h
    rw [findFrom] at h
    cases hr : re.run ⟨pos, [], List.replicate re.numGroups []⟩ with
    | nil => simp [hr] at h
    | cons st t =>
      simp only [hr, Option.some.injEq] at h
      exact ⟨pos, [], st, _, by simp [hr], h.symm⟩
  | cons a rest ih =>
    intro pos ms h
    rw [findFrom] at h
    cases hr : re.run ⟨pos, a :: rest, List.replicate re.numGroups []⟩ with
    | nil =>
      simp only [hr] at h
      exact ih (pos + 1) ms h
    | cons st t =>
      simp only [hr, Option.some.injEq] at h
      exact ⟨pos, a :: rest, st, _, by simp [hr], h.symm⟩

/-- What `FindStringSubmatch` returns for the pattern: nothing, or the match
and two groups, the second one not empty. -/
theorem FindStringSubmatch_remoteUrlPattern (url : String) :
    FindStringSubmatch remoteUrlPattern url = [] ∨
      ∃ w c0 c1, FindStringSubmatch remoteUrlPattern url = [w, c0, c1] ∧ c1 ≠ "" := by
  unfold FindStringSubmatch
  cases hf : findFrom remoteUrlPattern 0 url.data with
  | none => exact Or.inl rfl
  | some ms =>
    obtain ⟨pos1, rest1, st, w, hst, rfl⟩ := findFrom_some _ _ _ _ hf
    obtain ⟨c0, c1, hc, hne⟩ := remoteUrlPattern_caps pos1 rest1 st hst
    refine Or.inr ⟨⟨w⟩, ⟨c0⟩, ⟨c1⟩, by simp [hc], ?_⟩
    intro he
    exact hne (congrArg String.data he)

theorem FindStringSubmatch_url (url : String) (scheme h portPart ns p suffix : List Char)
    (hurl : url.data = scheme ++ (h ++ (portPart ++ '/' :: (ns ++ '/' :: (p ++ suffix)))))
    (hscheme : scheme = "https://".data ∨ scheme = "http://".data ∨ scheme = "ssh://".data)
    (hh : h ≠ []) (hhost : ∀ x ∈ h, x ≠ '/' ∧ x ≠ ':')
    (hport : portPart = [] ∨
      ∃ digits, digits ≠ [] ∧ (∀ x ∈ digits, x.isDigit = true) ∧ portPart = ':' :: digits)
    (hns : '\n' ∉ ns) (hp : p ≠ []) (hslash : '/' ∉ p)
    (hs : suffix = [] ∨ suffix = ".git".data) (hgit : suffix = [] → ¬ ".git".data <:+ p) :
    FindStringSubmatch remoteUrlPattern url = [url, ⟨ns⟩, ⟨p⟩] := by
  have hy := remoteUrlPattern_yields scheme h portPart ns p suffix hscheme hh hhost hport hns hp
    hslash hs hgit
  have hf := findFrom_of_yields remoteUrlPattern 0 _ [ns, p] hy
  unfold FindStringSubmatch
  rw [hurl, hf]
  simp only [List.map_cons, List.map_nil, List.cons.injEq, and_true, true_and]
  exact String.ext hurl.symm

/-- What a successful resolution has gone through. -/
theorem extractGitInfo_ok {σ : Type} (refreshGitInfo : σ → Option String × σ)
    (getProjectRemoteUrl : σ → (String × Option String) × σ)
    (getCurrentBranchName : σ → (String × Option String) × σ) (s : σ)
    (h : (extractGitInfo refreshGitInfo getProjectRemoteUrl getCurrentBranchName s).1.2 = none) :
    ∃ s1 url s2 branch s3, refreshGitInfo s = (none, s1) ∧
      getProjectRemoteUrl s1 = ((url, none), s2) ∧
      (FindStringSubmatch remoteUrlPattern url).length = 3 ∧
      getCurrentBranchName s2 = ((branch, none), s3) ∧
      extractGitInfo refreshGitInfo getProjectRemoteUrl getCurrentBranchName s =
        (({ RemoteUrl := url,
            Namespace := (FindStringSubmatch remoteUrlPattern url).getD 1 "",
            ProjectName := (FindStringSubmatch remoteUrlPattern url).getD 2 "",
            BranchName := branch }, none), s3) := by
  unfold extractGitInfo at h ⊢
  rcases hr : refreshGitInfo s with ⟨e1, s1⟩
  rw [hr] at h
  cases e1 with
  | some e => simp at h
  | none =>
    rcases hu : getProjectRemoteUrl s1 with ⟨⟨url, e2⟩, s2⟩
    simp only [hu] at h
    cases e2 with
    | some e => simp at h
    | none =>
      by_cases hl : (FindStringSubmatch remoteUrlPattern url).length = 3
      · rcases hb : getCurrentBranchName s2 with ⟨⟨branch, e3⟩, s3⟩
        simp only [hl, ne_eq, not_true_eq_false, if_false, hb] at h
        cases e3 with
        | some e => simp at h
        | none =>
          refine ⟨s1, url, s2, branch, s3, rfl, ?_, hl, hb, ?_⟩
          · exact hu
          · simp [hu, hl, hb]
      · simp [hl] at h

theorem extractGitInfo_refresh_fail {σ : Type} (refreshGitInfo : σ → Option String × σ)
    (getProjectRemoteUrl : σ → (String × Option String) × σ)
    (getCurrentBranchName : σ → (String × Option String) × σ) (s s1 : σ) (e : String)
    (hr : refreshGitInfo s = (some e, s1)) :
    extractGitInfo refreshGitInfo getProjectRemoteUrl getCurrentBranchName s =
      ((GitProjectInfo.zero, some ("Could not get latest information from remote: " ++ e)), s1) := by
  unfold extractGitInfo
  simp [hr]

theorem extractGitInfo_url_fail {σ : Type} (refreshGitInfo : σ → Option String × σ)
    (getProjectRemoteUrl : σ → (String × Option String) × σ)
    (getCurrentBranchName : σ → (String × Option String) × σ) (s s1 s2 : σ) (x e : String)
    (hr : refreshGitInfo s = (none, s1)) (hu : getProjectRemoteUrl s1 = ((x, some e), s2)) :
    extractGitInfo refreshGitInfo getProjectRemoteUrl getCurrentBranchName s =
      ((GitProjectInfo.zero, some ("Could not get project Url: " ++ e)), s2) := by
  unfold extractGitInfo
  simp [hr, hu]

theorem extractGitInfo_no_match {σ : Type} (refreshGitInfo : σ → Option String × σ)
    (getProjectRemoteUrl : σ → (String × Option String) × σ)
    (getCurrentBranchName : σ → (String × Option String) × σ) (s s1 s2 : σ) (url : String)
    (hr : refreshGitInfo s = (none, s1)) (hu : getProjectRemoteUrl s1 = ((url, none), s2))
    (hm : FindStringSubmatch remoteUrlPattern url = []) :
    extractGitInfo refreshGitInfo getProjectRemoteUrl getCurrentBranchName s =
      ((GitProjectInfo.zero, some ("Invalid Git URL format: " ++ url)), s2) := by
  unfold extractGitInfo
  simp [hr, hu, hm]

theorem extractGitInfo_branch_fail {σ : Type} (refreshGitInfo : σ → Option String × σ)
    (getProjectRemoteUrl : σ → (String × Option String) × σ)
    (getCurrentBranchName : σ → (String × Option String) × σ) (s s1 s2 s3 : σ)
    (url x e : String)
    (hr : refreshGitInfo s = (none, s1)) (hu : getProjectRemoteUrl s1 = ((url, none), s2))
    (hm : FindStringSubmatch remoteUrlPattern url ≠ [])
    (hb : getCurrentBranchName s2 = ((x, some e), s3)) :
    extractGitInfo refreshGitInfo getProjectRemoteUrl getCurrentBranchName s =
      ((GitProjectInfo.zero, some ("Failed to get current branch: " ++ e)), s3) := by
  rcases FindStringSubmatch_remoteUrlPattern url with h0 | ⟨w, c0, c1, h3, -⟩
  · exact absurd h0 hm
  · unfold extractGitInfo
    simp [hr, hu, h3, hb]

theorem extractGitInfo_success {σ : Type} (refreshGitInfo : σ → Option String × σ)
    (getProjectRemoteUrl : σ → (String × Option String) × σ)
    (getCurrentBranchName : σ → (String × Option String) × σ) (s s1 s2 s3 : σ)
    (url branch : String)
    (hr : refreshGitInfo s = (none, s1)) (hu : getProjectRemoteUrl s1 = ((url, none), s2))
    (hm : FindStringSubmatch remoteUrlPattern url ≠ [])
    (hb : getCurrentBranchName s2 = ((branch, none), s3)) :
    extractGitInfo refreshGitInfo getProjectRemoteUrl getCurrentBranchName s =
      (({ RemoteUrl := url,
          Namespace := (FindStringSubmatch remoteUrlPattern url).getD 1 "",
          ProjectName := (FindStringSubmatch remoteUrlPattern url).getD 2 "",
          BranchName := branch }, none), s3) := by
  rcases FindStringSubmatch_remoteUrlPattern url with h0 | ⟨w, c0, c1, h3, -⟩
  · exact absurd h0 hm
  · unfold extractGitInfo
    simp [hr, hu, h3, hb]

/-! ## Theorems: the repository identity -/

/-- C1: for a URL-style remote `scheme://host[:port]/seg/.../seg/project[.git]`
(the scheme one of https, http, ssh; the host non-empty without '/' and ':',
possibly with a `user@` part; the port one or more decimal digits; at least one
segment, each non-empty without '/' and newline; the project name non-empty,
without '/', not ending in ".git"), when the refresh and the branch lookup
succeed, `extractGitInfo` succeeds with the segments joined by "/" as
Namespace, the project name as ProjectName, the URL unchanged as RemoteUrl and
the branch returned as BranchName. -/
theorem extractGitInfo_url_style {σ : Type} (refreshGitInfo : σ → Option String × σ)
    (getProjectRemoteUrl : σ → (String × Option String) × σ)
    (getCurrentBranchName : σ → (String × Option String) × σ) (s s1 s2 s3 : σ)
    (scheme h : String) (port : Option String) (segs : List String) (p : String)
    (dotGit : Bool) (branch : String)
    (hscheme : scheme = "https://" ∨ scheme = "http://" ∨ scheme = "ssh://")
    (hh : h ≠ "") (hhost : ∀ x ∈ h.data, x ≠ '/' ∧ x ≠ ':')
    (hport : ∀ d, port = some d → d ≠ "" ∧ ∀ x ∈ d.data, x.isDigit = true)
    (_hsegs : segs ≠ [])
    (hseg : ∀ g ∈ segs, g ≠ "" ∧ '/' ∉ g.data ∧ '\n' ∉ g.data)
    (hp : p ≠ "") (hpslash : '/' ∉ p.data) (hpgit : ¬ ".git".data <:+ p.data)
    (hr : refreshGitInfo s = (none, s1))
    (hu : getProjectRemoteUrl s1 =
      ((scheme ++ h ++ port.elim "" (fun d => ":" ++ d) ++ "/" ++
          "/".intercalate segs ++ "/" ++ p ++ (if dotGit then ".git" else ""), none), s2))
    (hb : getCurrentBranchName s2 = ((branch, none), s3)) :
    extractGitInfo refreshGitInfo getProjectRemoteUrl getCurrentBranchName s =
      (({ RemoteUrl := scheme ++ h ++ port.elim "" (fun d => ":" ++ d) ++
            "/" ++ "/".intercalate segs ++ "/" ++ p ++ (if dotGit then ".git" else ""),
          Namespace := "/".intercalate segs,
          ProjectName := p,
          BranchName := branch }, none), s3) := by
  have hfind : FindStringSubmatch remoteUrlPattern
      (scheme ++ h ++ port.elim "" (fun d => ":" ++ d) ++ "/" ++
        "/".intercalate segs ++ "/" ++ p ++ (if dotGit then ".git" else "")) =
      [scheme ++ h ++ port.elim "" (fun d => ":" ++ d) ++ "/" ++
        "/".intercalate segs ++ "/" ++ p ++ (if dotGit then ".git" else ""),
       "/".intercalate segs, p] := by
    apply FindStringSubmatch_url _ scheme.data h.data
      (port.elim "" (fun d => ":" ++ d)).data
      ("/".intercalate segs).data p.data (if dotGit then ".git" else "" : String).data
    · have e : "/".data = ['/'] := rfl
      simp only [String.data_append, e, List.append_assoc, List.singleton_append,
        List.cons_append, List.nil_append]
    · rcases hscheme with rfl | rfl | rfl <;> simp
    · exact fun e => hh (String.ext e)
    · exact hhost
    · cases port with
      | none => exact Or.inl rfl
      | some d =>
        obtain ⟨hd, hdig⟩ := hport d rfl
        exact Or.inr ⟨d.data, fun e => hd (String.ext e), hdig, rfl⟩
    · exact not_mem_intercalate '\n' "/" (by decide) segs (fun g hg => (hseg g hg).2.2)
    · exact fun e => hp (String.ext e)
    · exact hpslash
    · cases dotGit
      · exact Or.inl rfl
      · exact Or.inr rfl
    · exact fun _ => hpgit
  unfold extractGitInfo
  simp [hr, hu, hfind, hb]

/-- C1, an instance: `ssh://git@gitlab.com:2222/namespace/subnamespace/dummy-test-repo.git`. -/
theorem extractGitInfo_url_style_witness :
    extractGitInfo (fun (_ : Unit) => (none, ()))
        (fun _ => (("ssh://" ++ "git@gitlab.com" ++
            (some "2222").elim "" (fun d => ":" ++ d) ++ "/" ++
            "/".intercalate ["namespace", "subnamespace"] ++ "/" ++ "dummy-test-repo" ++
            (if true then ".git" else ""), none), ()))
        (fun _ => (("feature", none), ())) () =
      (({ RemoteUrl := "ssh://" ++ "git@gitlab.com" ++
            (some "2222").elim "" (fun d => ":" ++ d) ++ "/" ++
            "/".intercalate ["namespace", "subnamespace"] ++ "/" ++ "dummy-test-repo" ++
            (if true then ".git" else ""),
          Namespace := "/".intercalate ["namespace", "subnamespace"],
          ProjectName := "dummy-test-repo",
          BranchName := "feature" }, none), ()) :=
  extractGitInfo_url_style (fun (_ : Unit) => (none, ())) _ (fun _ => (("feature", none), ()))
    () () () () "ssh://" "git@gitlab.com" (some "2222") ["namespace", "subnamespace"]
    "dummy-test-repo" true "feature" (by decide) (by decide) (by decide)
    (by intro d hd; cases hd; exact ⟨by decide, by decide⟩) (by decide) (by decide)
    (by decide) (by decide) (by decide) rfl rfl rfl

/-- C2 at the remote `git@gitlab.com:123/sub/proj.git`: the numeric first
segment is consumed as a port, and the Namespace is "sub", not "123/sub". -/
theorem extractGitInfo_scp_numeric_segment :
    extractGitInfo (fun (_ : Unit) => (none, ()))
        (fun _ => (("git@gitlab.com:123/sub/proj.git", none), ()))
        (fun _ => (("feature", none), ())) () =
      (({ RemoteUrl := "git@gitlab.com:123/sub/proj.git",
          Namespace := "sub",
          ProjectName := "proj",
          BranchName := "feature" }, none), ()) := by
  decide

/-- C3: when the refresh succeeds and the remote URL obtained is one the
pattern does not match, `extractGitInfo` fails with the message
"Invalid Git URL format: " followed by that URL, and returns the empty
identity. -/
theorem extractGitInfo_invalid_url {σ : Type} (refreshGitInfo : σ → Option String × σ)
    (getProjectRemoteUrl : σ → (String × Option String) × σ)
    (getCurrentBranchName : σ → (String × Option String) × σ) (s s1 s2 : σ) (url : String)
    (hr : refreshGitInfo s = (none, s1))
    (hu : getProjectRemoteUrl s1 = ((url, none), s2))
    (hm : FindStringSubmatch remoteUrlPattern url = []) :
    extractGitInfo refreshGitInfo getProjectRemoteUrl getCurrentBranchName s =
      (({ RemoteUrl := "", Namespace := "", ProjectName := "", BranchName := "" },
        some ("Invalid Git URL format: " ++ url)), s2) := by
  exact extractGitInfo_no_match refreshGitInfo getProjectRemoteUrl getCurrentBranchName s s1 s2 url
    hr hu hm

/-- C3, an instance: the remote `gitlab.com/namespace/project`, without scheme. -/
theorem extractGitInfo_invalid_url_witness :
    extractGitInfo (fun (_ : Unit) => (none, ()))
        (fun _ => (("gitlab.com/namespace/project", none), ()))
        (fun _ => (("feature", none), ())) () =
      (({ RemoteUrl := "", Namespace := "", ProjectName := "", BranchName := "" },
        some ("Invalid Git URL format: " ++ "gitlab.com/namespace/project")), ()) :=
  extractGitInfo_invalid_url (fun (_ : Unit) => (none, ())) _ _ () () ()
    "gitlab.com/namespace/project" rfl rfl (by decide)

/-- C4 as stated fails: the remote `https://host//proj` is resolved without
error, with an empty Namespace. -/
theorem extractGitInfo_empty_namespace :
    extractGitInfo (fun (_ : Unit) => (none, ()))
        (fun _ => (("https://host//proj", none), ()))
        (fun _ => (("feature", none), ())) () =
      (({ RemoteUrl := "https://host//proj",
          Namespace := "",
          ProjectName := "proj",
          BranchName := "feature" }, none), ()) := by
  decide

/-- C4 (as the code has it): whenever `extractGitInfo` returns without error,
the ProjectName of the identity is not empty. -/
theorem extractGitInfo_projectName_nonempty {σ : Type}
    (refreshGitInfo : σ → Option String × σ)
    (getProjectRemoteUrl : σ → (String × Option String) × σ)
    (getCurrentBranchName : σ → (String × Option String) × σ) (s : σ)
    (h : (extractGitInfo refreshGitInfo getProjectRemoteUrl getCurrentBranchName s).1.2 = none) :
    (extractGitInfo refreshGitInfo getProjectRemoteUrl getCurrentBranchName s).1.1.ProjectName
      ≠ "" := by
  obtain ⟨s1, url, s2, branch, s3, -, -, hl, -, he⟩ :=
    extractGitInfo_ok refreshGitInfo getProjectRemoteUrl getCurrentBranchName s h
  rw [he]
  rcases FindStringSubmatch_remoteUrlPattern url with h0 | ⟨w, c0, c1, h3, hne⟩
  · rw [h0] at hl
    simp at hl
  · simpa [h3] using hne

/-- C4, an instance: the remote `https://host//proj`. -/
theorem extractGitInfo_projectName_nonempty_witness :
    (extractGitInfo (fun (_ : Unit) => (none, ()))
        (fun _ => (("https://host//proj", none), ()))
        (fun _ => (("feature", none), ())) ()).1.1.ProjectName ≠ "" :=
  extractGitInfo_projectName_nonempty (fun (_ : Unit) => (none, ()))
    (fun _ => (("https://host//proj", none), ()))
    (fun _ => (("feature", none), ())) () (by decide)

/-- C10: `extractGitInfo` invokes the refresh, then the remote-URL lookup, then
the branch lookup, each at most once, and stops at the first step that fails.
When the refresh fails only it has been invoked; when the URL lookup fails or
the URL does not match the pattern the branch lookup has not been invoked; in
each failing case the result is the empty identity with an error made of the
step's message and the underlying cause. -/
theorem extractGitInfo_step_order (r : List Step → Option String)
    (u b : List Step → String × Option String) :
    (∀ e, r [] = some e →
      extractGitInfo (traced .refresh r) (traced .remoteUrl u) (traced .branchName b) [] =
        ((GitProjectInfo.zero, some ("Could not get latest information from remote: " ++ e)),
          [.refresh])) ∧
    (r [] = none → ∀ e, (u [.refresh]).2 = some e →
      extractGitInfo (traced .refresh r) (traced .remoteUrl u) (traced .branchName b) [] =
        ((GitProjectInfo.zero, some ("Could not get project Url: " ++ e)),
          [.refresh, .remoteUrl])) ∧
    (r [] = none → (u [.refresh]).2 = none →
      FindStringSubmatch remoteUrlPattern (u [.refresh]).1 = [] →
      extractGitInfo (traced .refresh r) (traced .remoteUrl u) (traced .branchName b) [] =
        ((GitProjectInfo.zero, some ("Invalid Git URL format: " ++ (u [.refresh]).1)),
          [.refresh, .remoteUrl])) ∧
    (r [] = none → (u [.refresh]).2 = none →
      FindStringSubmatch remoteUrlPattern (u [.refresh]).1 ≠ [] →
      ∀ e, (b [.refresh, .remoteUrl]).2 = some e →
      extractGitInfo (traced .refresh r) (traced .remoteUrl u) (traced .branchName b) [] =
        ((GitProjectInfo.zero, some ("Failed to get current branch: " ++ e)),
          [.refresh, .remoteUrl, .branchName])) ∧
    ((extractGitInfo (traced .refresh r) (traced .remoteUrl u) (traced .branchName b) []).2
      <+: [.refresh, .remoteUrl, .branchName]) ∧
    ((extractGitInfo (traced .refresh r) (traced .remoteUrl u) (traced .branchName b) []).1.2
        ≠ none →
      (extractGitInfo (traced .refresh r) (traced .remoteUrl u) (traced .branchName b) []).1.1 =
        GitProjectInfo.zero) := by
  have hR : traced .refresh r [] = (r [], [.refresh]) := rfl
  have hU : traced .remoteUrl u [.refresh] = (u [.refresh], [.refresh, .remoteUrl]) := rfl
  have hB : traced .branchName b [.refresh, .remoteUrl] =
      (b [.refresh, .remoteUrl], [.refresh, .remoteUrl, .branchName]) := rfl
  cases hr : r [] with
  | some e0 =>
    rw [hr] at hR
    rw [extractGitInfo_refresh_fail _ _ _ _ _ _ hR]
    simp
  | none =>
    rw [hr] at hR
    rcases hu : u [.refresh] with ⟨url, e2⟩
    rw [hu] at hU
    cases e2 with
    | some e1 =>
      rw [extractGitInfo_url_fail _ _ _ _ _ _ _ _ hR hU]
      simp
    | none =>
      by_cases hm : FindStringSubmatch remoteUrlPattern url = []
      · rw [extractGitInfo_no_match _ _ _ _ _ _ _ hR hU hm]
        simp [hm]
      · rcases hb : b [.refresh, .remoteUrl] with ⟨br, e3⟩
        rw [hb] at hB
        cases e3 with
        | some e =>
          rw [extractGitInfo_branch_fail _ _ _ _ _ _ _ _ _ _ hR hU hm hB]
          simp [hm]
        | none =>
          rw [extractGitInfo_success _ _ _ _ _ _ _ _ _ hR hU hm hB]
          simp [hm]

/-- C10, instances: a refresh that fails with "offline", and a remote URL
that does not match the pattern. -/
theorem extractGitInfo_step_order_witness :
    extractGitInfo (traced .refresh (fun _ => some "offline"))
        (traced .remoteUrl (fun _ => ("https://gitlab.com/ns/p", none)))
        (traced .branchName (fun _ => ("feature", none))) [] =
      ((GitProjectInfo.zero, some ("Could not get latest information from remote: " ++ "offline")),
        [.refresh]) ∧
    extractGitInfo (traced .refresh (fun _ => none))
        (traced .remoteUrl (fun _ => ("gitlab.com/ns/p", none)))
        (traced .branchName (fun _ => ("feature", none))) [] =
      ((GitProjectInfo.zero, some ("Invalid Git URL format: " ++ "gitlab.com/ns/p")),
        [.refresh, .remoteUrl]) :=
  ⟨(extractGitInfo_step_order (fun _ => some "offline")
      (fun _ => ("https://gitlab.com/ns/p", none)) (fun _ => ("feature", none))).1 "offline" rfl,
   (extractGitInfo_step_order (fun _ => none)
      (fun _ => ("gitlab.com/ns/p", none)) (fun _ => ("feature", none))).2.2.1 rfl rfl
      (by decide)⟩

/-! ## Theorems: the handlers -/

/-- C5 (as the code has it): on a fresh working writer, a transport error of
the remote client yields the error envelope with status 500, message
"Could not merge MR" and the error text as details; a response without error
whose status code is at least 300 yields the error envelope with that status
code (not 500), the same message, and the `GenericError` naming the request
path as details. -/
theorem accept_failure_envelope {σ : Type} (a : mergeRequestAccepterService σ) (path : String)
    (payload : AcceptMergeRequestRequest) (s : σ) :
    (∀ e, (a.client s { pid := a.todata.projectInfo.ProjectId,
                        mergeRequest := a.todata.projectInfo.MergeId,
                        opt := acceptOptions payload }).1.err = some e →
      (a.ServeHTTP (ResponseWriter.fresh none) path payload s).1 =
        { writeErr := none, code := some 500,
          body := [.error { Message := "Could not merge MR", Details := e, Status := 500 }] }) ∧
    ((a.client s { pid := a.todata.projectInfo.ProjectId,
                   mergeRequest := a.todata.projectInfo.MergeId,
                   opt := acceptOptions payload }).1.err = none →
      (a.client s { pid := a.todata.projectInfo.ProjectId,
                    mergeRequest := a.todata.projectInfo.MergeId,
                    opt := acceptOptions payload }).1.StatusCode ≥ 300 →
      (a.ServeHTTP (ResponseWriter.fresh none) path payload s).1 =
        { writeErr := none,
          code := some (a.client s { pid := a.todata.projectInfo.ProjectId,
                                     mergeRequest := a.todata.projectInfo.MergeId,
                                     opt := acceptOptions payload }).1.StatusCode,
          body := [.error { Message := "Could not merge MR",
                            Details := "An error occurred on the " ++ path ++ " endpoint",
                            Status := (a.client s { pid := a.todata.projectInfo.ProjectId,
                                                    mergeRequest := a.todata.projectInfo.MergeId,
                                                    opt := acceptOptions payload }).1.StatusCode }] }) := by
  constructor
  · intro e he
    obtain ⟨d, client⟩ := a
    unfold mergeRequestAccepterService.ServeHTTP
    simp only at he ⊢
    generalize client s _ = r at he ⊢
    obtain ⟨res, s1⟩ := r
    simp only at he
    simp [he, handleError, WriteHeader, Encode, ResponseWriter.fresh, StatusInternalServerError]
  · intro he hs
    obtain ⟨d, client⟩ := a
    unfold mergeRequestAccepterService.ServeHTTP
    simp only at he hs ⊢
    generalize client s _ = r at he hs ⊢
    obtain ⟨res, s1⟩ := r
    simp only at he hs
    simp [he, hs, handleError, WriteHeader, Encode, ResponseWriter.fresh, GenericError]

/-- C5, an instance: a transport error "connection refused" and a response with
status 303 on the path "/mr/merge". -/
theorem accept_failure_envelope_witness :
    ((mergeRequestAccepterService.ServeHTTP
        { todata := { projectInfo := { ProjectId := "7", MergeId := 3 },
                      gitInfo := GitProjectInfo.zero },
          client := fun (_ : Unit) _ => ({ StatusCode := 0, err := some "connection refused" }, ()) }
        (ResponseWriter.fresh none) "/mr/merge"
        { AutoMerge := false, DeleteBranch := false, SquashMessage := "", Squash := false } ()).1 =
      { writeErr := none, code := some 500,
        body := [.error { Message := "Could not merge MR", Details := "connection refused",
                          Status := 500 }] }) ∧
    ((mergeRequestAccepterService.ServeHTTP
        { todata := { projectInfo := { ProjectId := "7", MergeId := 3 },
                      gitInfo := GitProjectInfo.zero },
          client := fun (_ : Unit) _ => ({ StatusCode := 303, err := none }, ()) }
        (ResponseWriter.fresh none) "/mr/merge"
        { AutoMerge := false, DeleteBranch := false, SquashMessage := "", Squash := false } ()).1 =
      { writeErr := none, code := some 303,
        body := [.error { Message := "Could not merge MR",
                          Details := "An error occurred on the " ++ "/mr/merge" ++ " endpoint",
                          Status := 303 }] }) :=
  ⟨(accept_failure_envelope
      { todata := { projectInfo := { ProjectId := "7", MergeId := 3 },
                    gitInfo := GitProjectInfo.zero },
        client := fun (_ : Unit) _ => ({ StatusCode := 0, err := some "connection refused" }, ()) }
      "/mr/merge"
      { AutoMerge := false, DeleteBranch := false, SquashMessage := "", Squash := false } ()).1
      "connection refused" rfl,
   (accept_failure_envelope
      { todata := { projectInfo := { ProjectId := "7", MergeId := 3 },
                    gitInfo := GitProjectInfo.zero },
        client := fun (_ : Unit) _ => ({ StatusCode := 303, err := none }, ()) }
      "/mr/merge"
      { AutoMerge := false, DeleteBranch := false, SquashMessage := "", Squash := false } ()).2
      rfl (by decide)⟩

/-- C5 as stated fails: a response without error and with status 303 yields an
error envelope whose status is 303, not 500. -/
theorem accept_non_success_status_not_500 :
    (mergeRequestAccepterService.ServeHTTP
        { todata := { projectInfo := { ProjectId := "7", MergeId := 3 },
                      gitInfo := GitProjectInfo.zero },
          client := fun (_ : Unit) _ => ({ StatusCode := 303, err := none }, ()) }
        (ResponseWriter.fresh none) "/mr/merge"
        { AutoMerge := false, DeleteBranch := false, SquashMessage := "", Squash := false } ()).1 ≠
      { writeErr := none, code := some 500,
        body := [.error { Message := "Could not merge MR",
                          Details := "An error occurred on the /mr/merge endpoint",
                          Status := 500 }] } ∧
    (mergeRequestAccepterService.ServeHTTP
        { todata := { projectInfo := { ProjectId := "7", MergeId := 3 },
                      gitInfo := GitProjectInfo.zero },
          client := fun (_ : Unit) _ => ({ StatusCode := 303, err := none }, ()) }
        (ResponseWriter.fresh none) "/mr/merge"
        { AutoMerge := false, DeleteBranch := false, SquashMessage := "", Squash := false } ()).1 =
      { writeErr := none, code := some 303,
        body := [.error { Message := "Could not merge MR",
                          Details := "An error occurred on the /mr/merge endpoint",
                          Status := 303 }] } := by
  decide

/-- C6: when the remote client returns no error and a status code below 300,
the handler, on a fresh working writer, sends status 200 and the success
envelope whose message is "MR set to be merged when all checks pass" if the
payload asks for auto-merge and "MR merged successfully" otherwise. -/
theorem accept_success_message {σ : Type} (a : mergeRequestAccepterService σ) (path : String)
    (payload : AcceptMergeRequestRequest) (s : σ)
    (herr : (a.client s { pid := a.todata.projectInfo.ProjectId,
                          mergeRequest := a.todata.projectInfo.MergeId,
                          opt := acceptOptions payload }).1.err = none)
    (hcode : (a.client s { pid := a.todata.projectInfo.ProjectId,
                           mergeRequest := a.todata.projectInfo.MergeId,
                           opt := acceptOptions payload }).1.StatusCode < 300) :
    (a.ServeHTTP (ResponseWriter.fresh none) path payload s).1 =
      { writeErr := none, code := some 200,
        body := [.success { Message := if payload.AutoMerge = true
                                         then "MR set to be merged when all checks pass"
                                         else "MR merged successfully" }] } := by
  obtain ⟨d, client⟩ := a
  unfold mergeRequestAccepterService.ServeHTTP
  simp only at herr hcode ⊢
  generalize client s _ = r at herr hcode ⊢
  obtain ⟨res, s1⟩ := r
  simp only at herr hcode
  have hn : ¬ (res.StatusCode ≥ 300) := by omega
  simp [herr, hn, WriteHeader, Encode, ResponseWriter.fresh, StatusOK]

/-- C6, an instance: auto-merge with squash and branch deletion, remote status 200. -/
theorem accept_success_message_witness :
    (mergeRequestAccepterService.ServeHTTP
        { todata := { projectInfo := { ProjectId := "7", MergeId := 3 },
                      gitInfo := GitProjectInfo.zero },
          client := fun (_ : Unit) _ => ({ StatusCode := 200, err := none }, ()) }
        (ResponseWriter.fresh none) "/mr/merge"
        { AutoMerge := true, DeleteBranch := true, SquashMessage := "one", Squash := true } ()).1 =
      { writeErr := none, code := some 200,
        body := [.success { Message := if true = true
                                         then "MR set to be merged when all checks pass"
                                         else "MR merged successfully" }] } :=
  accept_success_message
    { todata := { projectInfo := { ProjectId := "7", MergeId := 3 },
                  gitInfo := GitProjectInfo.zero },
      client := fun (_ : Unit) _ => ({ StatusCode := 200, err := none }, ()) }
    "/mr/merge"
    { AutoMerge := true, DeleteBranch := true, SquashMessage := "one", Squash := true } ()
    rfl (by decide)

/-- The client state after the handler is the state after one call of the
client, made at the initial state with the context's ids and the options built
from the payload. -/
theorem accept_client_state {σ : Type} (a : mergeRequestAccepterService σ) (w : ResponseWriter)
    (path : String) (payload : AcceptMergeRequestRequest) (s : σ) :
    (a.ServeHTTP w path payload s).2 =
      (a.client s { pid := a.todata.projectInfo.ProjectId,
                    mergeRequest := a.todata.projectInfo.MergeId,
                    opt := acceptOptions payload }).2 := by
  obtain ⟨d, client⟩ := a
  unfold mergeRequestAccepterService.ServeHTTP
  simp only
  generalize client s _ = r
  obtain ⟨⟨code, err⟩, s1⟩ := r
  cases err with
  | some e => rfl
  | none =>
    simp only
    by_cases h : code ≥ 300
    · simp [h]
    · simp only [h, if_false]
      cases (Encode (WriteHeader w StatusOK) (Body.success
        { Message := if payload.AutoMerge = true then "MR set to be merged when all checks pass"
                     else "MR merged successfully" })) with
      | mk w2 e2 => cases e2 <;> rfl

/-- C7: whatever the client answers and whatever the writer, the handler calls
the client exactly once, with the project id and the merge-request id of the
context and with options whose AutoMerge, Squash and ShouldRemoveSourceBranch
are the payload's AutoMerge, Squash and DeleteBranch, and whose
SquashCommitMessage is absent when the payload's squash message is empty and is
that message otherwise. -/
theorem accept_calls_client_once (d : data) (answer : List AcceptCall → AcceptCall → AcceptResult)
    (w : ResponseWriter) (path : String) (payload : AcceptMergeRequestRequest) :
    (mergeRequestAccepterService.ServeHTTP { todata := d, client := recordingAccepter answer }
        w path payload []).2 =
      [{ pid := d.projectInfo.ProjectId, mergeRequest := d.projectInfo.MergeId,
         opt := { AutoMerge := some payload.AutoMerge
                  Squash := some payload.Squash
                  ShouldRemoveSourceBranch := some payload.DeleteBranch
                  SquashCommitMessage :=
                    if payload.SquashMessage = "" then none else some payload.SquashMessage } }] := by
  rw [accept_client_state]
  by_cases h : payload.SquashMessage = "" <;> simp [recordingAccepter, acceptOptions, h]

/-- C8: when the GraphQL client fills the response slot with a sequence of
checks and returns no error, the handler, on a fresh working writer, sends
status 200 and the response whose message is "Mergeability checks retrieved"
and whose list of checks is that sequence. -/
theorem mergeability_checks_success {σ : Type} (a : mergeabilityChecksService σ) (s : σ)
    (checks : List (Option MergeabilityCheck))
    (hdo : (a.client s { Query := mergeabilityChecksQuery,
                         Variables := [("projectPath", a.todata.gitInfo.projectPath),
                                       ("iid", toString a.todata.projectInfo.MergeId)] }).1 =
            ({ MergeabilityChecks := checks }, none)) :
    (a.ServeHTTP (ResponseWriter.fresh none) s).1 =
      { writeErr := none, code := some 200,
        body := [.checks { toSuccessResponse := { Message := "Mergeability checks retrieved" },
                           MergeabilityChecks := checks }] } := by
  obtain ⟨d, client⟩ := a
  unfold mergeabilityChecksService.ServeHTTP mergeabilityChecksService.fetchMergeabilityChecks
  simp only at hdo ⊢
  generalize client s _ = r at hdo ⊢
  obtain ⟨⟨resp, err⟩, s1⟩ := r
  simp only [Prod.mk.injEq] at hdo
  obtain ⟨h1, h2⟩ := hdo
  subst h1 h2
  simp [WriteHeader, Encode, ResponseWriter.fresh, StatusOK]

/-- C8, instances: the two checks of the test, and no check at all. -/
theorem mergeability_checks_success_witness :
    (mergeabilityChecksService.ServeHTTP
        { todata := { projectInfo := { ProjectId := "7", MergeId := 123 },
                      gitInfo := { RemoteUrl := "", Namespace := "test-namespace",
                                   ProjectName := "test-project", BranchName := "feature-branch" } },
          client := fun (_ : Unit) _ =>
            (({ MergeabilityChecks := [some { Identifier := "CI_MUST_PASS", Status := "SUCCESS" },
                                       some { Identifier := "CONFLICT", Status := "FAILED" }] },
              none), ()) }
        (ResponseWriter.fresh none) ()).1 =
      { writeErr := none, code := some 200,
        body := [.checks { toSuccessResponse := { Message := "Mergeability checks retrieved" },
                           MergeabilityChecks :=
                             [some { Identifier := "CI_MUST_PASS", Status := "SUCCESS" },
                              some { Identifier := "CONFLICT", Status := "FAILED" }] }] } :=
  mergeability_checks_success
    { todata := { projectInfo := { ProjectId := "7", MergeId := 123 },
                  gitInfo := { RemoteUrl := "", Namespace := "test-namespace",
                               ProjectName := "test-project", BranchName := "feature-branch" } },
      client := fun (_ : Unit) _ =>
        (({ MergeabilityChecks := [some { Identifier := "CI_MUST_PASS", Status := "SUCCESS" },
                                   some { Identifier := "CONFLICT", Status := "FAILED" }] },
          none), ()) }
    () _ rfl

/-- C9: when the GraphQL client returns an error, the handler, on a fresh
working writer, sends no success envelope but the error envelope with status
500, message "Could not get mergeability checks" and details
"failed to fetch mergeability checks: " followed by the message of the error. -/
theorem mergeability_checks_failure {σ : Type} (a : mergeabilityChecksService σ) (s : σ)
    (e : String)
    (hdo : (a.client s { Query := mergeabilityChecksQuery,
                         Variables := [("projectPath", a.todata.gitInfo.projectPath),
                                       ("iid", toString a.todata.projectInfo.MergeId)] }).1.2 =
            some e) :
    (a.ServeHTTP (ResponseWriter.fresh none) s).1 =
      { writeErr := none, code := some 500,
        body := [.error { Message := "Could not get mergeability checks",
                          Details := "failed to fetch mergeability checks: " ++ e,
                          Status := 500 }] } := by
  obtain ⟨d, client⟩ := a
  unfold mergeabilityChecksService.ServeHTTP mergeabilityChecksService.fetchMergeabilityChecks
  simp only at hdo ⊢
  generalize client s _ = r at hdo ⊢
  obtain ⟨⟨resp, err⟩, s1⟩ := r
  simp only at hdo
  subst hdo
  simp [handleError, WriteHeader, Encode, ResponseWriter.fresh, StatusInternalServerError]

/-- C9, an instance: the error of the test, "Some error from Gitlab". -/
theorem mergeability_checks_failure_witness :
    (mergeabilityChecksService.ServeHTTP
        { todata := { projectInfo := { ProjectId := "7", MergeId := 123 },
                      gitInfo := { RemoteUrl := "", Namespace := "test-namespace",
                                   ProjectName := "test-project", BranchName := "feature-branch" } },
          client := fun (_ : Unit) _ =>
            (({ MergeabilityChecks := [] }, some "Some error from Gitlab"), ()) }
        (ResponseWriter.fresh none) ()).1 =
      { writeErr := none, code := some 500,
        body := [.error { Message := "Could not get mergeability checks",
                          Details := "failed to fetch mergeability checks: " ++
                            "Some error from Gitlab",
                          Status := 500 }] } :=
  mergeability_checks_failure
    { todata := { projectInfo := { ProjectId := "7", MergeId := 123 },
                  gitInfo := { RemoteUrl := "", Namespace := "test-namespace",
                               ProjectName := "test-project", BranchName := "feature-branch" } },
      client := fun (_ : Unit) _ =>
        (({ MergeabilityChecks := [] }, some "Some error from Gitlab"), ()) }
    () "Some error from Gitlab" rfl

end GitlabNvim
